import Mathlib

/-!
Verification development for the oscillator rendering engine and its
scheduling/control layer (sources: src/control.rs and src/node/oscillator.rs).

Modelling conventions.

Machine floats appear in two very different roles in this code and are
embedded accordingly:

- In the control layer (src/control.rs) `f64` values are only ever stored,
  loaded and compared; no arithmetic is performed on them.  We therefore
  model an `f64` by its IEEE-754 bit fields (`F64`: sign, 11-bit exponent,
  52-bit fraction).  `AtomicF64` stores the 64-bit pattern as a natural
  number, exactly as the Rust code stores the native-endian transmute of the
  float in an `AtomicU64`.  IEEE-754 comparison of non-NaN doubles coincides
  with comparison of the signed magnitude key `(-1)^sign * (exponent*2^52 +
  fraction)` (with both zeros mapping to key 0), which is the standard
  monotone-encoding fact for IEEE floats; NaN compares false with
  everything.  This gives a fully computable, decidable model of
  `ts >= start && ts < stop`.

- In the DSP layer (src/node/oscillator.rs) floats are real arithmetic
  (sin, atan2, powf, sqrt); we embed them as real (or, where exactness lets
  us, rational) numbers, i.e. we reason about the ideal real-valued
  semantics of the code.  The claims settled against this part either do not
  depend on rounding at all (control flow, list lengths, which field is
  updated) or are decided with margins that are many orders of magnitude
  wider than any f32 rounding error (this is noted where it matters).
-/

/-! ## IEEE-754 double model (src/control.rs) -/

/-- An IEEE-754 binary64 value, represented by its bit fields: sign bit,
11-bit biased exponent and 52-bit fraction. -/
structure F64 where
  sign : Bool
  ex : Fin 2048
  frac : Fin 4503599627370496
deriving DecidableEq

/-- Assemble the 64-bit pattern of an `F64`, as `f64::to_ne_bytes` followed by
`u64::from_ne_bytes` does in `AtomicF64::new` / `AtomicF64::store`. -/
def F64.toBits (v : F64) : ℕ :=
  (cond v.sign 1 0) * 2 ^ 63 + v.ex.val * 2 ^ 52 + v.frac.val

/-- Split a 64-bit pattern back into sign, exponent and fraction fields, as
`u64::to_ne_bytes` followed by `f64::from_ne_bytes` does in `AtomicF64::load`. -/
def F64.fromBits (n : ℕ) : F64 :=
  ⟨decide (n / 2 ^ 63 % 2 = 1),
   ⟨n / 2 ^ 52 % 2048, Nat.mod_lt _ (by norm_num)⟩,
   ⟨n % 4503599627370496, Nat.mod_lt _ (by norm_num)⟩⟩

/-- NaN test: all-ones exponent with a nonzero fraction. -/
def F64.isNaNb (v : F64) : Bool :=
  decide (v.ex.val = 2047) && decide (v.frac.val ≠ 0)

/-- Signed-magnitude key of a double.  For non-NaN values, IEEE-754 ordering
coincides with integer ordering of this key (both zeros share key 0). -/
def F64.key (v : F64) : ℤ :=
  if v.sign then -((v.ex.val : ℤ) * 2 ^ 52 + (v.frac.val : ℤ))
  else (v.ex.val : ℤ) * 2 ^ 52 + (v.frac.val : ℤ)

/-- IEEE-754 comparison `a < b` on doubles (false whenever an operand is NaN). -/
def F64.flt (a b : F64) : Bool :=
  !a.isNaNb && !b.isNaNb && decide (F64.key a < F64.key b)

/-- IEEE-754 comparison `a >= b` on doubles (false whenever an operand is NaN). -/
def F64.fge (a b : F64) : Bool :=
  !a.isNaNb && !b.isNaNb && decide (F64.key b ≤ F64.key a)

/-- IEEE-754 equality `a == b` on doubles (false whenever an operand is NaN;
`-0.0 == 0.0` holds since both zeros have key 0). -/
def F64.feq (a b : F64) : Bool :=
  !a.isNaNb && !b.isNaNb && decide (F64.key a = F64.key b)

/-- The double `f64::MAX` (largest finite double). -/
def f64max : F64 := ⟨false, ⟨2046, by norm_num⟩, ⟨4503599627370495, by norm_num⟩⟩

/-- The double `f64::INFINITY`. -/
def f64inf : F64 := ⟨false, ⟨2047, by norm_num⟩, ⟨0, by norm_num⟩⟩

/-- The double `0.0`. -/
def f64zero : F64 := ⟨false, ⟨0, by norm_num⟩, ⟨0, by norm_num⟩⟩

/-- The double `-0.0`. -/
def f64negZero : F64 := ⟨true, ⟨0, by norm_num⟩, ⟨0, by norm_num⟩⟩

/-- Atomic float slot: stores the 64-bit IEEE-754 bit pattern, as the Rust
`AtomicF64 { inner: AtomicU64 }` does.  Only `new`, `load` and `store` exist;
no arithmetic is defined on it. -/
structure AtomicF64 where
  inner : ℕ
deriving DecidableEq

/-- Rust `AtomicF64::new(v)`: store the native-endian bit pattern of `v`. -/
def AtomicF64.new (v : F64) : AtomicF64 := ⟨v.toBits⟩

/-- Rust `AtomicF64::load()`: reinterpret the stored bit pattern as a double. -/
def AtomicF64.load (a : AtomicF64) : F64 := F64.fromBits a.inner

/-- Rust `AtomicF64::store(v)`: overwrite the slot with the bit pattern of `v`. -/
def AtomicF64.store (_a : AtomicF64) (v : F64) : AtomicF64 := ⟨v.toBits⟩

/-- The scheduler of src/control.rs: a pair of atomically stored timestamps. -/
structure Scheduler where
  start : AtomicF64
  stop : AtomicF64
deriving DecidableEq

/-- Rust `Scheduler::new()`: both endpoints are initialized to `f64::MAX`
(initial playback state: inactive). -/
def Scheduler.new : Scheduler := ⟨AtomicF64.new f64max, AtomicF64.new f64max⟩

/-- Rust `Scheduler::is_active(ts)`: `ts >= self.start.load() && ts < self.stop.load()`. -/
def Scheduler.isActive (s : Scheduler) (ts : F64) : Bool :=
  F64.fge ts s.start.load && F64.flt ts s.stop.load

/-- Rust `Scheduler::start_at(start)`: store the start timestamp. -/
def Scheduler.startAt (s : Scheduler) (start : F64) : Scheduler :=
  { s with start := s.start.store start }

/-- Rust `Scheduler::stop_at(stop)`: store the stop timestamp. -/
def Scheduler.stopAt (s : Scheduler) (stop : F64) : Scheduler :=
  { s with stop := s.stop.store stop }

/-! ## Oscillator data model (src/node/oscillator.rs) -/

/-- Waveform of an oscillator (enum OscillatorType). -/
inductive OscillatorType where
  | sine
  | square
  | sawtooth
  | triangle
  | custom
deriving DecidableEq

/-- The stable ordinal of each variant (Rust `type_ as u32`). -/
def OscillatorType.toU32 : OscillatorType → ℕ
  | .sine => 0
  | .square => 1
  | .sawtooth => 2
  | .triangle => 3
  | .custom => 4

/-- Rust `impl From of u32 for OscillatorType`: 0..4 map to the five variants,
anything else hits `unreachable!()`, modelled as `none`. -/
def OscillatorType.fromU32 : ℕ → Option OscillatorType
  | 0 => some .sine
  | 1 => some .square
  | 2 => some .sawtooth
  | 3 => some .triangle
  | 4 => some .custom
  | _ => none

/-- Options for constructing a periodic wave (struct PeriodicWaveOptions).
Coefficients are `f32` in the source; the claims about this struct only touch
list lengths and the exact literals 0 and 1, so the scalar type is a
parameter. -/
structure PeriodicWaveOptions (α : Type) where
  real : List α
  imag : List α
  disable_normalization : Bool
deriving DecidableEq

/-- The validated periodic wave (struct PeriodicWave). -/
structure PeriodicWave (α : Type) where
  real : List α
  imag : List α
  disable_normalization : Bool
deriving DecidableEq

/-- Rust `PeriodicWave::new(context, options)`.  With `Some(options)` it
asserts `real.len() >= 2`, `imag.len() >= 2` and `real.len() == imag.len()`
(in that order); an assertion failure (panic) is modelled as `none`, so no
partially constructed value exists on failure.  With `None` it returns the
default coefficients real = [0, 0], imag = [0, 1] (a pure sine first
harmonic) with normalization enabled. -/
def PeriodicWave.new {α : Type} [Zero α] [One α]
    (options : Option (PeriodicWaveOptions α)) : Option (PeriodicWave α) :=
  match options with
  | some o =>
    if o.real.length < 2 then none
    else if o.imag.length < 2 then none
    else if o.real.length ≠ o.imag.length then none
    else some ⟨o.real, o.imag, o.disable_normalization⟩
  | none => some ⟨[0, 0], [0, 1], false⟩

/-- The default coefficients OscillatorRenderer::new substitutes when its
config carries no PeriodicWave (the `else` branch at oscillator.rs lines
617-623): real = [0, 1], imag = [0, 0], normalization enabled — a pure cosine
first harmonic. -/
def rendererDefaultPeriodicWave : PeriodicWave ℚ := ⟨[0, 1], [0, 0], false⟩

/-! ## Interpolation-ratio formulas (exact rational model)

The two derivations of per-harmonic interpolation ratios use only
subtraction, floor, round and absolute value, which are exact on any input
whose value and rounding target are exactly representable; we model them over
the rationals.  `rustRound` is `f32::round` (round half away from zero). -/

/-- Rust `f32::round`: round to the nearest integer, ties away from zero. -/
def rustRound (q : ℚ) : ℚ :=
  if 0 ≤ q then ((⌊q + 1/2⌋ : ℤ) : ℚ) else -((⌊-q + 1/2⌋ : ℤ) : ℚ)

/-- The per-harmonic ratio of OscillatorNode::set_periodic_wave (line 396):
`(incr_phase - incr_phase.round()).abs()`. -/
def nodeInterpolRatio (x : ℚ) : ℚ := |x - rustRound x|

/-- The per-harmonic ratio of OscillatorRenderer::new (line 652):
`incr_phase - incr_phase.floor()`. -/
def rendererInterpolRatio (x : ℚ) : ℚ := x - ((⌊x⌋ : ℤ) : ℚ)

/-- The per-harmonic phase increments `TABLE_LENGTH * idx * (computed_freq /
sample_rate)` (oscillator.rs line 391 and lines 644-648). -/
def incrPhasesQ (n : ℕ) (cf sr : ℚ) : List ℚ :=
  (List.range n).map (fun k => 2048 * (k : ℚ) * (cf / sr))

/-- The interpol_ratios loop of set_periodic_wave, mapped over the phase
increments. -/
def interpolRatiosNode (xs : List ℚ) : List ℚ := xs.map nodeInterpolRatio

/-- The interpol_ratios map of OscillatorRenderer::new. -/
def interpolRatiosRenderer (xs : List ℚ) : List ℚ := xs.map rendererInterpolRatio

/-! ## Wavetable synthesis loop (generate_wavetable)

`OscillatorNode::generate_wavetable` and the static
`OscillatorRenderer::generate_wavetable` run the same loop: while the
harmonic-1 phase accumulator is at most TABLE_LENGTH, accumulate one linearly
interpolated sample per harmonic k in [1, N) and advance every phase by its
increment.  The Rust `while` loop is modelled with explicit fuel: `none`
means the fuel ran out with the guard still true, so the loop terminates on
given inputs exactly when some fuel returns `some`.  The definitions are
generic in a linear ordered field so that the same code text is usable both
at the exact rationals and at the reals (where the sine table lives). -/

/-- Rust `expr as usize` on a finite nonnegative float: truncation (and
saturation to 0 for negative inputs). -/
def floorNat {α : Type} [LinearOrderedRing α] [FloorRing α] (x : α) : ℕ :=
  (⌊x⌋).toNat

/-- One pass of the inner `for i in 1..phases.len()` loop: the accumulated
sample value, using the old phases (each index is read before it is
written, and distinct indices do not interact). -/
def innerSample {α : Type} [LinearOrderedField α] [FloorRing α] (table : ℕ → α)
    (norms incr ratios phases : List α) : α :=
  ((List.range phases.length).drop 1).foldl
    (fun acc i =>
      let idx := floorNat (phases.getD i 0 + incr.getD i 0)
      acc + (table (idx % 2048) * (1 - ratios.getD i 0)
             + table ((idx + 1) % 2048) * ratios.getD i 0) * norms.getD i 0)
    0

/-- The phase updates of the inner loop: `phases[i] = phases[i] +
incr_phases[i]` for every i in [1, phases.len()). -/
def stepFrom {α : Type} [LinearOrderedField α] (incr : List α) :
    ℕ → List α → List α
  | _, [] => []
  | i, p :: ps => (if 1 ≤ i then p + incr.getD i 0 else p) :: stepFrom incr (i + 1) ps

/-- The fuelled `while phases[1] <= TABLE_LENGTH_F32` loop of
generate_wavetable.  `acc` is the buffer being pushed to; `none` models fuel
exhaustion (the concrete loop not having finished within `fuel` iterations). -/
def genLoop {α : Type} [LinearOrderedField α] [FloorRing α] (table : ℕ → α)
    (norms incr ratios : List α) (fuel : ℕ) (phases acc : List α) : Option (List α) :=
  if phases.getD 1 0 ≤ 2048 then
    match fuel with
    | 0 => none
    | f + 1 =>
      genLoop table norms incr ratios f (stepFrom incr 0 phases)
        (acc ++ [innerSample table norms incr ratios phases])
  else some acc

/-- Rust `1. / buffer.iter().copied().reduce(f32::max).expect(..)` of
norm_factor: `none` models the `expect` panic on an empty buffer. -/
def normFactorOpt {α : Type} [LinearOrderedField α] (buffer : List α) : Option α :=
  match buffer with
  | [] => none
  | x :: xs => some (1 / xs.foldl max x)

/-! ## Binary32 phase accumulation

The exact-field loop above is used only where rounding is irrelevant (the
initial guard evaluation, decided with a margin of hundreds).  Termination of
the synthesis loop, however, hinges on the f32 statement
`phases[i] += incr_phases[i]`: IEEE round-to-nearest-even addition absorbs
any increment smaller than half an ulp of the accumulator, so the guard can
stall strictly below TABLE_LENGTH.  The definitions below model binary32
rounding exactly over the rationals (every finite f32 value is a rational,
and f32 addition is the exact rational sum rounded back to the binary32
grid), and `genLoop32` is the synthesis loop with this faithful phase
accumulation. -/

/-- Round a rational to the nearest integer, ties to even — the integer-grid
kernel of IEEE-754 roundTiesToEven. -/
def roundHalfEven (q : ℚ) : ℤ :=
  if q - ⌊q⌋ < 1 / 2 then ⌊q⌋
  else if 1 / 2 < q - ⌊q⌋ then ⌊q⌋ + 1
  else if ⌊q⌋ % 2 = 0 then ⌊q⌋ else ⌊q⌋ + 1

/-- Binary32 rounding of a positive rational: scale to the 24-bit significand
grid of the binade [2^e, 2^(e+1)) containing the value (clamped to the fixed
subnormal grid below 2^(-126)), round ties to even, scale back.  This is the
finite-range rounding function of IEEE-754 binary32; overflow to infinity is
not represented (an overflowed accumulator compares greater than TABLE_LENGTH
and exits the loop, in the program as in the model). -/
def roundPos32 (x : ℚ) : ℚ :=
  let e0 := Int.log 2 x
  let e := if e0 < -126 then -126 else e0
  let s : ℚ := 2 ^ ((23 : ℤ) - e)
  ((roundHalfEven (x * s) : ℤ) : ℚ) / s

/-- Binary32 round-to-nearest-even of a rational (the default f32 rounding;
rounding is symmetric about zero). -/
def roundF32 (x : ℚ) : ℚ :=
  if x = 0 then 0
  else if 0 < x then roundPos32 x
  else -roundPos32 (-x)

/-- f32 addition: the exact rational sum, rounded to binary32. -/
def add32 (a b : ℚ) : ℚ := roundF32 (a + b)

/-- The phase updates of the inner synthesis loop as the program performs
them: `phases[i] += incr_phases[i]` in f32, for every i in
[1, phases.len()). -/
def stepFrom32 (incr : List ℚ) : ℕ → List ℚ → List ℚ
  | _, [] => []
  | i, p :: ps =>
    (if 1 ≤ i then add32 p (incr.getD i 0) else p) :: stepFrom32 incr (i + 1) ps

/-- The fuelled `while phases[1] <= TABLE_LENGTH_F32` loop of
generate_wavetable with the f32 phase accumulation modelled exactly.  The
sample value pushed to the buffer each iteration is abstracted as a function
of the current phases because the pushed samples never feed back into the
loop control; every theorem about this loop below holds for all such sample
functions, in particular for the f32 evaluation of the source's
interpolation sum. -/
def genLoop32 (sample : List ℚ → ℚ) (incr : List ℚ) (fuel : ℕ)
    (phases acc : List ℚ) : Option (List ℚ) :=
  if phases.getD 1 0 ≤ 2048 then
    match fuel with
    | 0 => none
    | f + 1 =>
      genLoop32 sample incr f (stepFrom32 incr 0 phases) (acc ++ [sample phases])
  else some acc

/-! ## Real-valued DSP layer -/

noncomputable section

open scoped Classical

/-- The process-wide sine lookup table:
`SINETABLE[x] = sin(x * 2 * PI * (1 / TABLE_LENGTH))` for a table length of
2048 (the lazy_static at oscillator.rs lines 23-30). -/
def SINETABLE (i : ℕ) : ℝ := Real.sin ((i : ℝ) * 2 * Real.pi * (1 / 2048))

/-- Mathematical `atan2 y x` as computed by Rust `f32::atan2(y, x)`:
the angle of the point (x, y) in (-pi, pi], with `atan2 0 0 = 0`. -/
def atan2 (y x : ℝ) : ℝ :=
  if 0 < x then Real.arctan (y / x)
  else if x < 0 ∧ 0 ≤ y then Real.arctan (y / x) + Real.pi
  else if x < 0 then Real.arctan (y / x) - Real.pi
  else if 0 < y then Real.pi / 2
  else if y < 0 then -(Real.pi / 2)
  else 0

/-- The per-harmonic norms `sqrt(real[k]^2 + imag[k]^2)` (oscillator.rs lines
627-630; `f32::powi(x, 2)` is exact squaring). -/
def normsOf (real imag : List ℝ) : List ℝ :=
  List.zipWith (fun r i => Real.sqrt (r ^ 2 + i ^ 2)) real imag

/-- The per-harmonic phases of OscillatorRenderer::new (lines 632-642) and
set_periodic_wave (lines 382-388): `atan2(imag[k], real[k])`, shifted by 2*pi
when negative and then scaled by `TABLE_LENGTH_F32 / (2.0 * PI)`, but scaled
by `TABLE_LENGTH_F32 / 2.0 * PI` — which parses as `(TABLE_LENGTH/2) * PI` —
when nonnegative.  The asymmetry is carried over verbatim from the source. -/
def phasesOf (real imag : List ℝ) : List ℝ :=
  List.zipWith
    (fun r i =>
      let phase := atan2 i r
      if phase < 0 then (phase + 2 * Real.pi) * (2048 / (2 * Real.pi))
      else phase * (2048 / 2 * Real.pi))
    real imag

/-- The per-harmonic phase increments of OscillatorRenderer::new (lines
644-648), indexed over the zipped coefficient list. -/
def incrPhasesOfNew (n : ℕ) (cf sr : ℝ) : List ℝ :=
  (List.range n).map (fun k => 2048 * (k : ℝ) * (cf / sr))

/-- The interpolation ratios of OscillatorRenderer::new (lines 650-653):
`incr_phase - incr_phase.floor()`. -/
def interpolRatiosOfNew (xs : List ℝ) : List ℝ :=
  xs.map (fun x => x - ((⌊x⌋ : ℤ) : ℝ))

/-- The wavetable OscillatorRenderer::new synthesizes from the coefficient
lists: norms, phases, increments and ratios are derived as in the source and
fed to the generate_wavetable loop (the zipped coefficient list has the
length of the shorter input). -/
def rendererNewWavetable (real imag : List ℝ) (cf sr : ℝ) (fuel : ℕ) :
    Option (List ℝ) :=
  genLoop SINETABLE (normsOf real imag)
    (incrPhasesOfNew (min real.length imag.length) cf sr)
    (interpolRatiosOfNew (incrPhasesOfNew (min real.length imag.length) cf sr))
    fuel (phasesOf real imag) []

/-! ## Renderer state and per-quantum processing -/

/-- States relative to the Sine oscillator type. -/
structure SineState where
  interpol_ratio : ℝ
  first : Bool

/-- States relative to the Triangle oscillator type. -/
structure TriangleState where
  last_output : ℝ

/-- States required to play back the periodic wavetable. -/
structure WavetableState where
  buffer : List ℝ
  phase : ℝ
  incr_phase : ℝ
  ref_freq : ℝ

/-- States relative to the Custom oscillator type. -/
structure PeriodicState where
  incr_phases : List ℝ
  interpol_ratios : List ℝ
  norm_factor : Option ℝ
  disable_normalization : Bool
  wavetable : WavetableState

/-- The render-thread state of struct OscillatorRenderer.  `type_` holds the
ordinal read from the shared AtomicU32; the scheduler holds the shared
start/stop slots; the frequency and detune parameter ids are left out because
the model passes the parameter buffers to `process` directly, as the
parameter-value store does in the source. -/
structure OscRenderer where
  type_ : ℕ
  scheduler : Scheduler
  computed_freq : ℝ
  sample_rate : ℝ
  phase : ℝ
  incr_phase : ℝ
  sine : SineState
  triangle : TriangleState
  periodic : PeriodicState

/-- The message sent from the control thread (enum OscMsg, single variant
PeriodicWaveMsg). -/
structure OscMsg where
  computed_freq : ℝ
  wavetable : List ℝ
  norm_factor : ℝ
  disable_normalization : Bool

/-- Rust `OscillatorRenderer::set_periodic_wave` (lines 710-721): replace the
wavetable buffer and reference frequency, set the normalization factor and
the normalization flag.  Nothing else changes. -/
def applyMsg (s : OscRenderer) (m : OscMsg) : OscRenderer :=
  { s with periodic :=
      { s.periodic with
        norm_factor := some m.norm_factor
        disable_normalization := m.disable_normalization
        wavetable :=
          { s.periodic.wavetable with
            ref_freq := m.computed_freq
            buffer := m.wavetable } } }

/-- Rust `OscillatorRenderer::poly_blep` (lines 1002-1013). -/
def polyBlep (s : OscRenderer) (t : ℝ) : ℝ :=
  let dt := s.incr_phase
  if t < dt then
    let u := t / dt
    u + u - u * u - 1
  else if t > 1 - dt then
    let u := (t - 1) / dt
    u * u + u + u + 1
  else 0

/-- Rust `OscillatorRenderer::arate_calc_params` (lines 728-746), translated
with the early returns made explicit: the sine branch may update the
table-scaled increment, and when it falls through with a changed frequency
the common tail overwrites the increment with the unit-interval one. -/
def arateCalcParams (ty : OscillatorType) (s : OscRenderer) (cf : ℝ) : OscRenderer :=
  if ty = OscillatorType.sine then
    let s1 :=
      if s.sine.first then
        { s with sine := { s.sine with first := false },
                 incr_phase := cf / s.sample_rate * 2048 }
      else s
    if |s1.computed_freq - cf| < 0.01 then s1
    else
      let s2 := { s1 with computed_freq := cf, incr_phase := cf / s1.sample_rate * 2048 }
      if |s2.computed_freq - cf| < 0.01 then s2
      else { s2 with computed_freq := cf, incr_phase := cf / s2.sample_rate }
  else
    if |s.computed_freq - cf| < 0.01 then s
    else { s with computed_freq := cf, incr_phase := cf / s.sample_rate }

/-- Rust `OscillatorRenderer::arate_calc_periodic_params` (lines 749-770):
rescale every periodic phase increment by the frequency ratio, rederive the
interpolation ratios, and update the wavetable increment. -/
def arateCalcPeriodicParams (s : OscRenderer) (cf : ℝ) : OscRenderer :=
  if |s.computed_freq - cf| < 0.01 then s
  else
    let incr2 := s.periodic.incr_phases.map (fun ip => ip * (cf / s.computed_freq))
    { s with
      computed_freq := cf
      periodic :=
        { s.periodic with
          incr_phases := incr2
          interpol_ratios :=
            List.zipWith (fun _ ip => ip - ((⌊ip⌋ : ℤ) : ℝ)) s.periodic.interpol_ratios incr2
          wavetable :=
            { s.periodic.wavetable with
              incr_phase := cf / s.periodic.wavetable.ref_freq } } }

/-- Closed form of the `while phase >= 1.0 { phase -= 1.0 }` reductions: for a
finite input at least 1 the loop lands on the fractional part, below 1 it
does not run. -/
def modOne (x : ℝ) : ℝ := if 1 ≤ x then Int.fract x else x

/-- One sample of generate_sine (lines 803-826). -/
def sineStep (ty : OscillatorType) (s : OscRenderer) (cf : ℝ) : OscRenderer × ℝ :=
  let s := arateCalcParams ty s cf
  let idx := floorNat s.phase
  let o := SINETABLE (idx % 2048) * (1 - s.sine.interpol_ratio)
           + SINETABLE ((idx + 1) % 2048) * s.sine.interpol_ratio
  ({ s with phase :=
      if s.phase + s.incr_phase ≥ 2048 then s.phase + s.incr_phase - 2048
      else s.phase + s.incr_phase },
   o)

/-- One sample of generate_sawtooth (lines 836-855). -/
def sawtoothStep (ty : OscillatorType) (s : OscRenderer) (cf : ℝ) : OscRenderer × ℝ :=
  let s := arateCalcParams ty s cf
  let sample := (2 * s.phase - 1) - polyBlep s s.phase
  ({ s with phase := modOne (s.phase + s.incr_phase) }, sample)

/-- The square-shaped sample shared by generate_square and generate_triangle:
naive square plus the two polyBLEP corrections. -/
def squareSample (s : OscRenderer) : ℝ :=
  ((if s.phase ≤ 0.5 then (1 : ℝ) else -1) + polyBlep s s.phase)
    - polyBlep s (modOne (s.phase + 0.5))

/-- One sample of generate_square (lines 865-891). -/
def squareStep (ty : OscillatorType) (s : OscRenderer) (cf : ℝ) : OscRenderer × ℝ :=
  let s := arateCalcParams ty s cf
  let sample := squareSample s
  ({ s with phase := modOne (s.phase + s.incr_phase) }, sample)

/-- One sample of generate_triangle (lines 901-934): the square-shaped sample
is fed through the leaky integrator and the result is emitted scaled by 4. -/
def triangleStep (ty : OscillatorType) (s : OscRenderer) (cf : ℝ) : OscRenderer × ℝ :=
  let s := arateCalcParams ty s cf
  let sq := squareSample s
  let s := { s with phase := modOne (s.phase + s.incr_phase) }
  let sample := s.incr_phase * sq + (1 - s.incr_phase) * s.triangle.last_output
  ({ s with triangle := ⟨sample⟩ }, sample * 4)

/-- Truncation toward zero, as an integer. -/
def truncInt (z : ℝ) : ℤ := if 0 ≤ z then ⌊z⌋ else -⌊-z⌋

/-- Rust `%` on floats: the remainder with the sign of the dividend,
`x - y * trunc(x / y)` for finite values. -/
def rustRem (x y : ℝ) : ℝ := x - y * ((truncInt (x / y) : ℤ) : ℝ)

/-- One sample of generate_custom (lines 944-952): advance the wavetable
phase cursor modulo the buffer length and read the buffer at the truncated
cursor (no interpolation). -/
def customStep (s : OscRenderer) (cf : ℝ) : OscRenderer × ℝ :=
  let s := arateCalcPeriodicParams s cf
  let ph := rustRem (s.periodic.wavetable.phase + s.periodic.wavetable.incr_phase)
      ((s.periodic.wavetable.buffer.length : ℕ) : ℝ)
  ({ s with periodic :=
      { s.periodic with wavetable := { s.periodic.wavetable with phase := ph } } },
   s.periodic.wavetable.buffer.getD (floorNat ph) 0)

/-- The per-sample generation loop shared by all five generators: thread the
renderer state through the sample buffer (the output channel is zipped with
the computed-frequency buffer). -/
def runSamples (step : OscRenderer → ℝ → OscRenderer × ℝ) :
    OscRenderer → List ℝ → OscRenderer × List ℝ
  | s, [] => (s, [])
  | s, cf :: rest =>
    let p := step s cf
    let r := runSamples step p.1 rest
    (r.1, p.2 :: r.2)

/-- Rust `OscillatorRenderer::generate_output` (lines 780-793): dispatch on
the oscillator type. -/
def generateOutput (ty : OscillatorType) (s : OscRenderer) (cfs : List ℝ) :
    OscRenderer × List ℝ :=
  match ty with
  | .sine => runSamples (sineStep ty) s cfs
  | .square => runSamples (squareStep ty) s cfs
  | .sawtooth => runSamples (sawtoothStep ty) s cfs
  | .triangle => runSamples (triangleStep ty) s cfs
  | .custom => runSamples customStep s cfs

/-- The computed-frequency buffer of process (lines 540-554): a 128-slot
array, zero-initialized, filled with `f * 2^(d/1200)`; when all adjacent
detune samples differ by less than 1e-6 the scalar `2^(d[0]/1200)` is
computed once. -/
def computedFreqs (freq det : List ℝ) : List ℝ :=
  if List.Chain' (fun a b : ℝ => |a - b| < 0.000001) det then
    (List.range 128).map (fun i =>
      if i < freq.length then freq.getD i 0 * (2 : ℝ) ^ (det.getD 0 0 / 1200) else 0)
  else
    (List.range 128).map (fun i =>
      if i < freq.length ∧ i < det.length then
        freq.getD i 0 * (2 : ℝ) ^ (det.getD i 0 / 1200)
      else 0)

/-- Rust `OscillatorRenderer::process` (lines 516-578).  The single mono
output channel is the returned sample list; the crossbeam receiver is the
queue of pending messages, of which `try_recv` takes at most the head; the
`unreachable!()` of the u32-to-type conversion is modelled as `none`.  When
the scheduler is not active at the quantum timestamp the output is made
silent (128 zeros) and the function returns at once. -/
def process (s : OscRenderer) (ts : F64) (freq det : List ℝ)
    (queue : List OscMsg) : Option (List ℝ × OscRenderer × List OscMsg) :=
  if s.scheduler.isActive ts then
    let cfs := computedFreqs freq det
    match OscillatorType.fromU32 s.type_ with
    | none => none
    | some ty =>
      match queue with
      | [] => some ((generateOutput ty s cfs).2, (generateOutput ty s cfs).1, [])
      | m :: rest =>
        some ((generateOutput ty (applyMsg s m) cfs).2,
              (generateOutput ty (applyMsg s m) cfs).1, rest)
  else some (List.replicate 128 0, s, queue)

/-- A concrete renderer state used to instantiate the process theorems: the
freshly constructed renderer of a default oscillator node (440 Hz, sample
rate 44100, scheduler never started, type ordinal 0 = sine). -/
def sampleRenderer : OscRenderer :=
  { type_ := 0
    scheduler := Scheduler.new
    computed_freq := 440
    sample_rate := 44100
    phase := 0
    incr_phase := 440 / 44100
    sine := ⟨0, true⟩
    triangle := ⟨0⟩
    periodic := ⟨[0, 2048 * (440 / 44100)], [0, 0], some 1, false, ⟨[0, 0, 0], 0, 1, 440⟩⟩ }

/-- The same renderer after the control thread called start(0): the scheduler
start slot holds 0.0, so the renderer is active at timestamp 0. -/
def activeRenderer : OscRenderer :=
  { sampleRenderer with scheduler := Scheduler.new.startAt f64zero }

/-- A concrete periodic-wave message for the process theorems. -/
def oscMsg0 : OscMsg := ⟨440, [0, 1], 1, false⟩

end

/-! ## Theorems about the control layer -/

/-- Decomposing the assembled bit pattern recovers the three fields: the
store/load round trip through the 64-bit pattern is the identity (this holds
for every bit pattern, NaNs included). -/
theorem F64.fromBits_toBits (v : F64) : F64.fromBits v.toBits = v := by
  obtain ⟨s, ⟨e, he⟩, ⟨f, hf⟩⟩ := v
  have h52 : (2 : ℕ) ^ 52 = 4503599627370496 := by norm_num
  have h63 : (2 : ℕ) ^ 63 = 9223372036854775808 := by norm_num
  cases s <;>
    simp only [F64.toBits, F64.fromBits, cond_true, cond_false, F64.mk.injEq,
      Fin.mk.injEq, h52, h63] <;>
    refine ⟨by simp only [decide_eq_true_eq, decide_eq_false_iff_not]; omega, by omega, by omega⟩

/-- Loading a freshly stored double returns that double. -/
theorem AtomicF64.load_new (v : F64) : (AtomicF64.new v).load = v :=
  F64.fromBits_toBits v

/-- Loading after a store returns the stored double. -/
theorem AtomicF64.load_store (a : AtomicF64) (v : F64) : (a.store v).load = v :=
  F64.fromBits_toBits v

/-- A timestamp can never be simultaneously at or above a bound and strictly
below the same bound: the two IEEE comparisons exclude each other. -/
theorem F64.fge_and_flt_same (t a : F64) : (F64.fge t a && F64.flt t a) = false := by
  cases h1 : F64.fge t a
  · simp
  · cases h2 : F64.flt t a
    · simp
    · exfalso
      simp only [F64.fge, F64.flt, Bool.and_eq_true, decide_eq_true_eq] at h1 h2
      omega

/-- C9: for every double value v (described by its bit fields), storing v in an
AtomicF64 and loading it back returns v exactly (the round trip through the
64-bit bit pattern is the identity, for fresh slots and after store alike), and
for every non-NaN v the loaded value is Rust-equal to v. -/
theorem atomic_f64_roundtrip (v : F64) (a : AtomicF64) :
    (AtomicF64.new v).load = v ∧ (a.store v).load = v ∧
      (v.isNaNb = false → F64.feq ((AtomicF64.new v).load) v = true) := by
  refine ⟨AtomicF64.load_new v, AtomicF64.load_store a v, fun h => ?_⟩
  rw [AtomicF64.load_new]
  simp [F64.feq, h]

/-- Witness for C9 at concrete inputs: the round trip is exact at positive
infinity and at negative zero. -/
theorem atomic_f64_roundtrip_witness :
    F64.feq ((AtomicF64.new f64inf).load) f64inf = true ∧
      ((AtomicF64.new f64zero).store f64negZero).load = f64negZero :=
  ⟨(atomic_f64_roundtrip f64inf (AtomicF64.new f64zero)).2.2 (by decide),
   (atomic_f64_roundtrip f64negZero (AtomicF64.new f64zero)).2.1⟩

/-- C2 counterexample: a freshly created Scheduler holds f64::MAX in both
endpoints, not positive infinity as the claim states (f64::MAX is a finite
double and differs from the infinity bit pattern). -/
theorem scheduler_default_is_max_not_inf :
    Scheduler.new.start.load = f64max ∧ Scheduler.new.stop.load = f64max ∧
      f64max ≠ f64inf := by
  refine ⟨AtomicF64.load_new f64max, AtomicF64.load_new f64max, by decide⟩

/-- C2 (amended): for every pair of timestamps most recently stored with
startAt/stopAt, is_active(t) returns exactly the IEEE comparison
t at-or-after start and t strictly-before stop; and a freshly created
Scheduler (whose endpoints default to f64::MAX, not to infinity) returns
false at every timestamp. -/
theorem scheduler_is_active_window :
    (∀ a b t : F64,
        (((Scheduler.new.stopAt b).startAt a).isActive t) = (F64.fge t a && F64.flt t b))
    ∧ ∀ t : F64, Scheduler.new.isActive t = false := by
  constructor
  · intro a b t
    simp [Scheduler.isActive, Scheduler.startAt, Scheduler.stopAt,
      AtomicF64.load_store, AtomicF64.load_new]
  · intro t
    have h := F64.fge_and_flt_same t f64max
    simpa [Scheduler.isActive, Scheduler.new, AtomicF64.load_new] using h

/-! ## Theorems about the renderer process -/

/-- C1: whenever the scheduler is not active at the quantum timestamp (in
particular for a renderer whose scheduler was never started), process writes
exactly 128 zero samples to the mono output channel and returns, leaving the
whole renderer state — phase, incr_phase, computed_freq, sine, triangle and
periodic states — unchanged, and consuming nothing from the message queue. -/
theorem osc_process_inactive_silences_and_preserves_state
    (s : OscRenderer) (ts : F64) (freq det : List ℝ) (queue : List OscMsg)
    (h : s.scheduler.isActive ts = false) :
    process s ts freq det queue = some (List.replicate 128 0, s, queue) := by
  simp [process, h]

/-- Witness for C1: the freshly built default renderer, never started, at
timestamp 0. -/
theorem osc_process_inactive_silences_and_preserves_state_witness :
    process sampleRenderer f64zero [] [] [] =
      some (List.replicate 128 0, sampleRenderer, []) :=
  osc_process_inactive_silences_and_preserves_state sampleRenderer f64zero [] [] []
    (by decide)

/-- C4 counterexample: the renderer does not drain the channel regardless of
scheduler state.  On an inactive renderer with one pending message the call
returns before polling: the message is still pending afterwards. -/
theorem osc_process_inactive_keeps_message_pending :
    process sampleRenderer f64zero [] [] [oscMsg0] =
      some (List.replicate 128 0, sampleRenderer, [oscMsg0])
    ∧ [oscMsg0] ≠ ([] : List OscMsg) := by
  have h : sampleRenderer.scheduler.isActive f64zero = false := by decide
  exact ⟨by simp [process, h], by simp⟩

/-- C4 (amended): on every call where the scheduler is active at the quantum
timestamp (and the shared type ordinal is valid), a pending message is
consumed during the call — exactly one, the head of the queue — and the
periodic state is replaced via set_periodic_wave before any sample is
generated: the call is equal to generating the quantum from the
message-updated state.  When the scheduler is inactive the call returns
before the poll and consumes nothing. -/
theorem osc_process_active_drains_one_message
    (s : OscRenderer) (ts : F64) (freq det : List ℝ) (m : OscMsg)
    (q : List OscMsg) (ty : OscillatorType)
    (hact : s.scheduler.isActive ts = true)
    (hty : OscillatorType.fromU32 s.type_ = some ty) :
    process s ts freq det (m :: q) =
      some ((generateOutput ty (applyMsg s m) (computedFreqs freq det)).2,
            (generateOutput ty (applyMsg s m) (computedFreqs freq det)).1, q) := by
  simp [process, hact, hty]

/-- Witness for C4: a started renderer at timestamp 0 with one pending
message. -/
theorem osc_process_active_drains_one_message_witness :
    process activeRenderer f64zero [] [] [oscMsg0] =
      some ((generateOutput OscillatorType.sine (applyMsg activeRenderer oscMsg0)
              (computedFreqs [] [])).2,
            (generateOutput OscillatorType.sine (applyMsg activeRenderer oscMsg0)
              (computedFreqs [] [])).1, []) :=
  osc_process_active_drains_one_message activeRenderer f64zero [] [] oscMsg0 []
    OscillatorType.sine (by decide) (by decide)

/-! ## Theorems about construction and conversion -/

/-- C6: PeriodicWave::new with Some(options) fails (panics) exactly when
real.len() < 2, or imag.len() < 2, or the two lengths differ; when it does
not fail it returns a PeriodicWave holding exactly the given real, imag and
disable_normalization values (failure produces no value at all, so there is
no partial construction). -/
theorem periodic_wave_new_validation (o : PeriodicWaveOptions ℚ) :
    (PeriodicWave.new (some o) = none ↔
      (o.real.length < 2 ∨ o.imag.length < 2 ∨ o.real.length ≠ o.imag.length))
    ∧ ∀ pw : PeriodicWave ℚ, PeriodicWave.new (some o) = some pw →
        pw.real = o.real ∧ pw.imag = o.imag ∧
          pw.disable_normalization = o.disable_normalization := by
  constructor
  · show (if o.real.length < 2 then none
      else if o.imag.length < 2 then none
      else if o.real.length ≠ o.imag.length then none
      else some (⟨o.real, o.imag, o.disable_normalization⟩ : PeriodicWave ℚ)) = none ↔ _
    split_ifs with h1 h2 h3 <;> simp_all
  · intro pw h
    replace h : (if o.real.length < 2 then none
      else if o.imag.length < 2 then none
      else if o.real.length ≠ o.imag.length then none
      else some (⟨o.real, o.imag, o.disable_normalization⟩ : PeriodicWave ℚ)) = some pw := h
    split_ifs at h <;> cases pw <;> simp_all

/-- Witness for C6: the example coefficients real = [0, 1], imag = [0, 0]
pass validation and are stored unchanged. -/
theorem periodic_wave_new_validation_witness :
    (⟨[0, 1], [0, 0], false⟩ : PeriodicWave ℚ).real = [0, 1] ∧
      (⟨[0, 1], [0, 0], false⟩ : PeriodicWave ℚ).imag = [0, 0] ∧
      (⟨[0, 1], [0, 0], false⟩ : PeriodicWave ℚ).disable_normalization = false :=
  (periodic_wave_new_validation ⟨[0, 1], [0, 0], false⟩).2
    ⟨[0, 1], [0, 0], false⟩ rfl

/-- C7: the u32-to-OscillatorType conversion maps 0, 1, 2, 3, 4 to Sine,
Square, Sawtooth, Triangle, Custom — the inverse of the `as u32` ordinal of
each variant — and for every value at least 5 it refuses to return a tag
(the `unreachable!()` panic, modelled as none). -/
theorem oscillator_type_from_u32_spec :
    (∀ t : OscillatorType, OscillatorType.fromU32 t.toU32 = some t)
    ∧ OscillatorType.fromU32 0 = some .sine
    ∧ OscillatorType.fromU32 1 = some .square
    ∧ OscillatorType.fromU32 2 = some .sawtooth
    ∧ OscillatorType.fromU32 3 = some .triangle
    ∧ OscillatorType.fromU32 4 = some .custom
    ∧ ∀ n : ℕ, 5 ≤ n → OscillatorType.fromU32 n = none := by
  refine ⟨fun t => by cases t <;> rfl, rfl, rfl, rfl, rfl, rfl, fun n hn => ?_⟩
  obtain ⟨m, rfl⟩ : ∃ m, n = m + 5 := ⟨n - 5, by omega⟩
  rfl

/-- Witness for C7: ordinal 7 (for instance a corrupted atomic) yields no
tag. -/
theorem oscillator_type_from_u32_spec_witness :
    OscillatorType.fromU32 7 = none :=
  oscillator_type_from_u32_spec.2.2.2.2.2.2 7 (by decide)

/-- C10: when OscillatorRenderer::new receives no PeriodicWave it seeds its
custom wavetable from real = [0, 1], imag = [0, 0] with normalization enabled
(a pure cosine first harmonic), which differs from the default that
PeriodicWave::new(None) produces, real = [0, 0], imag = [0, 1] (a pure sine
first harmonic). -/
theorem renderer_default_wave_differs_from_periodic_default :
    rendererDefaultPeriodicWave = ⟨[0, 1], [0, 0], false⟩
    ∧ PeriodicWave.new (α := ℚ) none = some ⟨[0, 0], [0, 1], false⟩
    ∧ rendererDefaultPeriodicWave ≠ (⟨[0, 0], [0, 1], false⟩ : PeriodicWave ℚ) :=
  ⟨rfl, rfl, by decide⟩

/-! ## Theorems about the interpolation ratios -/

/-- C5 counterexample: with computed_freq = 7 and sample_rate = 8192 (all
quantities exactly representable in f32, so the rational model is bit-exact)
the harmonic-1 increment is 7/4; set_periodic_wave derives the ratio
|7/4 - round(7/4)| = 1/4, which is not the fractional part 3/4. -/
theorem node_interpol_ratios_not_fract :
    interpolRatiosNode (incrPhasesQ 2 7 8192) ≠
      (incrPhasesQ 2 7 8192).map (fun x => Int.fract x) := by
  have hr : incrPhasesQ 2 7 8192 = [0, 7 / 4] := by
    simp only [incrPhasesQ, List.range_succ, List.range_zero]
    norm_num
  have hround : rustRound (7 / 4 : ℚ) = 2 := by
    rw [rustRound, if_pos (by norm_num)]
    have : ⌊(7 / 4 + 1 / 2 : ℚ)⌋ = 2 := by
      rw [Int.floor_eq_iff]
      constructor <;> norm_num
    rw [this]
    norm_num
  have hfract : Int.fract (7 / 4 : ℚ) = 3 / 4 := by
    have : ⌊(7 / 4 : ℚ)⌋ = 1 := by
      rw [Int.floor_eq_iff]
      constructor <;> norm_num
    rw [Int.fract, this]
    norm_num
  have hne : nodeInterpolRatio (7 / 4 : ℚ) ≠ Int.fract (7 / 4 : ℚ) := by
    rw [nodeInterpolRatio, hround, hfract, abs_sub_comm,
      show ((2 : ℚ) - 7 / 4) = 1 / 4 by norm_num,
      abs_of_nonneg (by norm_num : (0 : ℚ) ≤ 1 / 4)]
    norm_num
  intro h
  rw [hr] at h
  simp only [interpolRatiosNode, List.map_cons, List.map_nil,
    List.cons.injEq, and_true] at h
  exact hne h.2

/-- C5 (amended): the ratio derived in OscillatorRenderer::new equals the
fractional part of the phase increment, but the ratio derived in
OscillatorNode::set_periodic_wave equals the distance from the increment to
its nearest integer, min(fract x, 1 - fract x); the two agree only when the
fractional part is at most one half. -/
theorem interpol_ratio_formulas (x : ℚ) :
    rendererInterpolRatio x = Int.fract x
    ∧ nodeInterpolRatio x = min (Int.fract x) (1 - Int.fract x) := by
  constructor
  · rfl
  · have h0 : 0 ≤ Int.fract x := Int.fract_nonneg x
    have h1 : Int.fract x < 1 := Int.fract_lt_one x
    have hx : x = (⌊x⌋ : ℚ) + Int.fract x := by rw [Int.floor_add_fract]
    unfold nodeInterpolRatio rustRound
    by_cases hs : 0 ≤ x
    · rw [if_pos hs]
      have hsplit : x + 1 / 2 = (⌊x⌋ : ℚ) + (Int.fract x + 1 / 2) := by linarith
      rw [hsplit, Int.floor_int_add]
      by_cases hf : Int.fract x < 1 / 2
      · have hz : ⌊Int.fract x + 1 / 2⌋ = 0 := by
          rw [Int.floor_eq_zero_iff, Set.mem_Ico]
          constructor <;> linarith
        rw [hz, min_eq_left (by linarith)]
        push_cast
        rw [abs_of_nonneg (by linarith)]
        linarith
      · have hz : ⌊Int.fract x + 1 / 2⌋ = 1 := by
          rw [Int.floor_eq_iff]
          constructor <;> push_cast <;> linarith
        rw [hz, min_eq_right (by linarith)]
        push_cast
        rw [abs_of_nonpos (by linarith)]
        linarith
    · rw [if_neg hs]
      push_neg at hs
      have hsplit : -x + 1 / 2 = ((-⌊x⌋ : ℤ) : ℚ) + (1 / 2 - Int.fract x) := by
        push_cast
        linarith
      rw [hsplit, Int.floor_int_add]
      by_cases hf : Int.fract x ≤ 1 / 2
      · have hz : ⌊1 / 2 - Int.fract x⌋ = 0 := by
          rw [Int.floor_eq_zero_iff, Set.mem_Ico]
          constructor <;> linarith
        rw [hz, min_eq_left (by linarith)]
        push_cast
        rw [abs_of_nonneg (by linarith)]
        linarith
      · have hz : ⌊1 / 2 - Int.fract x⌋ = -1 := by
          rw [Int.floor_eq_iff]
          constructor <;> push_cast <;> linarith
        rw [hz, min_eq_right (by linarith)]
        push_cast
        rw [abs_of_nonpos (by linarith)]
        linarith

/-! ## Theorems about wavetable synthesis -/

/-- Rounding to the nearest integer (ties either way) moves a value by at
most one half. -/
theorem roundHalfEven_bounds (q : ℚ) :
    q - 1 / 2 ≤ ((roundHalfEven q : ℤ) : ℚ) ∧ ((roundHalfEven q : ℤ) : ℚ) ≤ q + 1 / 2 := by
  have h0 : ((⌊q⌋ : ℤ) : ℚ) ≤ q := Int.floor_le q
  have h1 : q < ⌊q⌋ + 1 := Int.lt_floor_add_one q
  unfold roundHalfEven
  split_ifs with hA hB hC <;> constructor <;> push_cast <;> linarith

/-- Binary32 rounding error is at most one part in 2^24 below the value, for
values at least one ulp of the guard bound (which keeps the exponent out of
the subnormal clamp). -/
theorem roundPos32_ge (x : ℚ) (hx : 1 / 2048 ≤ x) :
    x - x * (1 / 16777216) ≤ roundPos32 x := by
  have hpos : 0 < x := lt_of_lt_of_le (by norm_num) hx
  have hlog_ge : (-11 : ℤ) ≤ Int.log 2 x := by
    rw [← Int.zpow_le_iff_le_log (by norm_num) hpos]
    have h2 : ((2 : ℕ) : ℚ) ^ (-11 : ℤ) = 1 / 2048 := by norm_num
    rw [h2]
    exact hx
  have hzle : (2 : ℚ) ^ Int.log 2 x ≤ x := by
    have h := Int.zpow_log_le_self (b := 2) (r := x) (by norm_num) hpos
    rwa [show ((2 : ℕ) : ℚ) = 2 by norm_num] at h
  have hcl : (if Int.log 2 x < -126 then (-126 : ℤ) else Int.log 2 x) = Int.log 2 x :=
    if_neg (by omega)
  show x - x * (1 / 16777216) ≤
    ((roundHalfEven (x * 2 ^ ((23 : ℤ) -
        (if Int.log 2 x < -126 then -126 else Int.log 2 x))) : ℤ) : ℚ) /
      2 ^ ((23 : ℤ) - (if Int.log 2 x < -126 then -126 else Int.log 2 x))
  rw [hcl]
  have hs : (0 : ℚ) < 2 ^ ((23 : ℤ) - Int.log 2 x) := zpow_pos (by norm_num) _
  rw [le_div_iff hs]
  have hb := (roundHalfEven_bounds (x * 2 ^ ((23 : ℤ) - Int.log 2 x))).1
  have hxs : (8388608 : ℚ) ≤ x * 2 ^ ((23 : ℤ) - Int.log 2 x) := by
    have h1 : (2 : ℚ) ^ Int.log 2 x * 2 ^ ((23 : ℤ) - Int.log 2 x) = 2 ^ (23 : ℤ) := by
      rw [← zpow_add₀ (two_ne_zero : (2 : ℚ) ≠ 0)]
      congr 1
      omega
    have h2 : (2 : ℚ) ^ (23 : ℤ) = 8388608 := by norm_num
    calc (8388608 : ℚ) = 2 ^ Int.log 2 x * 2 ^ ((23 : ℤ) - Int.log 2 x) := by rw [h1, h2]
    _ ≤ x * 2 ^ ((23 : ℤ) - Int.log 2 x) := mul_le_mul_of_nonneg_right hzle hs.le
  have hexp : (x - x * (1 / 16777216)) * 2 ^ ((23 : ℤ) - Int.log 2 x) =
      x * 2 ^ ((23 : ℤ) - Int.log 2 x)
        - (x * 2 ^ ((23 : ℤ) - Int.log 2 x)) * (1 / 16777216) := by ring
  rw [hexp]
  linarith

/-- Progress of the f32 accumulation: while the accumulator is within the
loop guard (0 ≤ a ≤ 2048) an increment of at least one ulp of 2048 advances
it by at least half the increment. -/
theorem add32_progress (a d : ℚ) (ha0 : 0 ≤ a) (ha : a ≤ 2048)
    (hd : 1 / 2048 ≤ d) : a + d / 2 ≤ add32 a d := by
  have hpos : 0 < a + d := by
    have : (0 : ℚ) < 1 / 2048 := by norm_num
    linarith
  have hge := roundPos32_ge (a + d) (by linarith)
  rw [add32, roundF32, if_neg (ne_of_gt hpos), if_pos hpos]
  linarith

/-- The f32 phase update preserves the number of harmonics. -/
theorem stepFrom32_length (incr : List ℚ) :
    ∀ (i : ℕ) (ps : List ℚ), (stepFrom32 incr i ps).length = ps.length := by
  intro i ps
  induction ps generalizing i with
  | nil => rfl
  | cons p ps ih => simp [stepFrom32, ih]

/-- One pass of the inner loop replaces the harmonic-1 phase accumulator by
its f32 sum with the harmonic-1 increment. -/
theorem stepFrom32_getD_one (incr : List ℚ) (a b : ℚ) (t : List ℚ) :
    (stepFrom32 incr 0 (a :: b :: t)).getD 1 0 = add32 b (incr.getD 1 0) := by
  simp [stepFrom32]

/-- Fuel bound for the f32 synthesis loop: with an increment of at least one
ulp of the guard bound, every guarded iteration advances the accumulator by
at least half the increment, so fuel covering twice the remaining gap
suffices. -/
theorem genLoop32_isSome_of_fuel (sample : List ℚ → ℚ) (incr : List ℚ)
    (hd : 1 / 2048 ≤ incr.getD 1 0) :
    ∀ (fuel : ℕ) (phases acc : List ℚ), 2 ≤ phases.length →
      0 ≤ phases.getD 1 0 →
      (2048 : ℚ) < phases.getD 1 0 + fuel * (incr.getD 1 0 / 2) →
      (genLoop32 sample incr fuel phases acc).isSome := by
  intro fuel
  induction fuel with
  | zero =>
    intro phases acc _ _ hbound
    simp only [Nat.cast_zero, zero_mul, add_zero] at hbound
    rw [genLoop32, if_neg (not_le.2 hbound)]
    simp
  | succ f ih =>
    intro phases acc hlen hp0 hbound
    rw [genLoop32]
    by_cases hg : phases.getD 1 0 ≤ 2048
    · rw [if_pos hg]
      match phases, hlen with
      | a :: b :: t, _ =>
        simp only [List.getD_cons_succ, List.getD_cons_zero] at hg hp0 hbound
        have hprog := add32_progress b (incr.getD 1 0) hp0 hg hd
        have hdpos : (0 : ℚ) < 1 / 2048 := by norm_num
        apply ih
        · simpa [stepFrom32_length] using hlen
        · rw [stepFrom32_getD_one]
          linarith
        · rw [stepFrom32_getD_one]
          push_cast at hbound ⊢
          linarith
    · rw [if_neg hg]
      simp

/-- Unfolding of the binary32 rounding of a positive value once its binade is
known (and lies above the subnormal clamp). -/
theorem roundPos32_eval (x : ℚ) (e : ℤ) (hlog : Int.log 2 x = e)
    (hcl : -126 ≤ e) :
    roundPos32 x =
      ((roundHalfEven (x * 2 ^ ((23 : ℤ) - e)) : ℤ) : ℚ) / 2 ^ ((23 : ℤ) - e) := by
  simp only [roundPos32]
  rw [hlog, if_neg (by omega)]

/-- The stalled f32 addition: 1024 + 2^(-15) lies in the binade [2^10, 2^11),
where the significand grid spacing (one ulp) is 2^(-13); the increment is a
quarter ulp, so round-to-nearest-even returns 1024 unchanged.  Every quantity
is exactly representable in f32, so the rational computation is bit-exact. -/
theorem add32_stall : add32 1024 (1 / 32768) = 1024 := by
  have hx : (1024 : ℚ) + 1 / 32768 = 33554433 / 32768 := by norm_num
  have hxpos : (0 : ℚ) < 33554433 / 32768 := by norm_num
  have hlog : Int.log 2 ((33554433 : ℚ) / 32768) = 10 := by
    rw [Int.log_of_one_le_right _ (by norm_num : (1 : ℚ) ≤ 33554433 / 32768)]
    have hfl : ⌊(33554433 : ℚ) / 32768⌋₊ = 1024 := by
      rw [Nat.floor_eq_iff (by norm_num)]
      norm_num
    rw [hfl, @Nat.log_eq_of_pow_le_of_lt_pow 2 10 1024 (by norm_num) (by norm_num)]
    norm_num
  have hrhe : roundHalfEven ((33554433 : ℚ) / 4) = 8388608 := by
    have hfloor : ⌊(33554433 : ℚ) / 4⌋ = 8388608 := by
      rw [Int.floor_eq_iff]
      constructor <;> norm_num
    rw [roundHalfEven, hfloor]
    rw [if_pos (by norm_num)]
  rw [add32, hx, roundF32, if_neg (by norm_num), if_pos hxpos,
    roundPos32_eval _ 10 hlog (by norm_num),
    show ((23 : ℤ) - 10) = 13 by norm_num,
    show ((2 : ℚ) ^ (13 : ℤ)) = 8192 by norm_num,
    show ((33554433 : ℚ) / 32768 * 8192) = 33554433 / 4 by norm_num,
    hrhe]
  norm_num

/-- C8 counterexample: the original claim fails under the f32 arithmetic the
program actually performs.  At the valid two-harmonic input with phases =
[0, 1024] and the positive increment incr_phases[1] = 2^(-15) (both exactly
representable in f32), the f32 addition 1024 + 2^(-15) rounds back to 1024 -
the increment is below half an ulp of the accumulator - so the guard
phases[1] <= TABLE_LENGTH holds forever and the loop returns for no fuel at
all: the program does not terminate, whatever samples are pushed. -/
theorem f32_phase_accumulation_stalls :
    (0 : ℚ) < ([0, 1 / 32768] : List ℚ).getD 1 0
    ∧ ∀ (sample : List ℚ → ℚ) (fuel : ℕ) (acc : List ℚ),
        genLoop32 sample [0, 1 / 32768] fuel [0, 1024] acc = none := by
  have hfix : stepFrom32 [0, 1 / 32768] 0 [0, 1024] = [0, 1024] := by
    simp only [stepFrom32, List.getD_cons_succ, List.getD_cons_zero]
    norm_num [add32_stall]
  refine ⟨by norm_num, fun sample fuel => ?_⟩
  induction fuel with
  | zero =>
    intro acc
    rw [genLoop32, if_pos (by decide)]
  | succ f ih =>
    intro acc
    rw [genLoop32, if_pos (by decide), hfix]
    exact ih _

/-- C8 (amended): for every input to generate_wavetable whose four arrays
share one length of at least 2, whose harmonic-1 phase starts nonnegative
(as every phase the builder derives is) and whose harmonic-1 increment is at
least 2^(-11) = 1/2048 (one ulp of the guard bound TABLE_LENGTH), the
synthesis loop terminates even in f32: each guarded iteration advances
phases[1] by at least incr_phases[1]/2, so the guard eventually fails and a
finite buffer is produced.  (For merely positive increments this is false -
see the stall counterexample.) -/
theorem generate_wavetable32_terminates (sample : List ℚ → ℚ)
    (norms incr ratios phases acc : List ℚ)
    (hlen : 2 ≤ phases.length)
    (hn : norms.length = phases.length)
    (hi : incr.length = phases.length)
    (hr : ratios.length = phases.length)
    (hp0 : 0 ≤ phases.getD 1 0)
    (hd : 1 / 2048 ≤ incr.getD 1 0) :
    ∃ fuel, (genLoop32 sample incr fuel phases acc).isSome := by
  have hdpos : (0 : ℚ) < incr.getD 1 0 / 2 := by
    have : (0 : ℚ) < 1 / 2048 := by norm_num
    linarith
  obtain ⟨n, hn2⟩ := exists_nat_gt ((2048 - phases.getD 1 0) / (incr.getD 1 0 / 2))
  refine ⟨n, genLoop32_isSome_of_fuel sample incr hd n phases acc hlen hp0 ?_⟩
  rw [div_lt_iff hdpos] at hn2
  linarith

/-- Witness for C8: a two-harmonic input with harmonic-1 increment 1024
terminates under f32 accumulation. -/
theorem generate_wavetable32_terminates_witness :
    ∃ fuel, (genLoop32 (fun _ => (0 : ℚ)) [0, 1024] fuel [0, 0] []).isSome :=
  generate_wavetable32_terminates (fun _ => (0 : ℚ)) [0, 0] [0, 1024] [0, 0] [0, 0] []
    (by decide) (by decide) (by decide) (by decide) (by decide)
    (by norm_num [List.getD_cons_succ, List.getD_cons_zero])

/-- At the coefficients real = [0, 1], imag = [0, 1] the harmonic-1 phase is
atan2(1, 1) = pi/4, which is nonnegative, so the source scales it by
`TABLE_LENGTH_F32 / 2.0 * PI` = 1024 * pi (the asymmetric positive branch). -/
theorem phasesOf_pos_branch_value :
    (phasesOf [0, 1] [0, 1]).getD 1 0 = Real.pi / 4 * (2048 / 2 * Real.pi) := by
  have ha : atan2 1 1 = Real.pi / 4 := by
    rw [atan2, if_pos one_pos]
    norm_num [Real.arctan_one]
  simp only [phasesOf, List.zipWith_cons_cons, List.zipWith_nil_right,
    List.getD_cons_succ, List.getD_cons_zero]
  rw [ha, if_neg (not_lt.2 (by positivity))]

/-- The initial harmonic-1 phase already exceeds TABLE_LENGTH: pi/4 * 1024 *
pi = 256 * pi^2 is about 2526.6 > 2048 (the margin is enormous compared with
any f32 rounding error). -/
theorem phasesOf_pos_branch_exceeds_table :
    ¬((phasesOf [0, 1] [0, 1]).getD 1 0 ≤ 2048) := by
  rw [phasesOf_pos_branch_value]
  push_neg
  nlinarith [Real.pi_gt_three]

/-- C3 is violated by the code: for the valid coefficients real = [0, 1],
imag = [0, 1] (equal lengths of 2) and every computedFreq and sampleRate, the
wavetable OscillatorRenderer::new synthesizes is empty — the loop guard
phases[1] <= TABLE_LENGTH is false before the first iteration because of the
positive-phase scaling branch — and norm_factor on the empty buffer hits the
`expect` panic (modelled as none). -/
theorem norm_factor_panics_on_positive_phase_harmonics :
    ∀ (fuel : ℕ) (cf sr : ℝ),
      rendererNewWavetable [0, 1] [0, 1] cf sr fuel = some []
      ∧ normFactorOpt ([] : List ℝ) = none := by
  intro fuel cf sr
  refine ⟨?_, rfl⟩
  rcases fuel with _ | f <;>
    rw [rendererNewWavetable, genLoop, if_neg phasesOf_pos_branch_exceeds_table]
